import Mathlib

/-!
A shallow embedding of the remarkable-daily-planner sources
(`calendar_fetcher.py`, `pdf_generator.py`, `app.py`) and proofs about it.

Modelling conventions:
* Timed instants are absolute minutes since an epoch (`ℤ`).  A timezone-aware
  Python datetime is represented by its absolute instant; a naive datetime is
  represented by its wall-clock tuple read as minutes-since-epoch-if-UTC, so
  `replace(tzinfo=UTC)` maps a naive value `t` to the instant `t`.
* The display timezone is modelled as a fixed offset `off` in minutes
  (wall clock = instant + off); `localize` of a naive wall time `w` yields the
  instant `w - off`.  DST transitions are outside the model.
* Bare calendar dates are day indices (`ℤ`); midnight of day `d` is wall
  minute `d * 1440`.
* Python strings are `List Char`; `str.split()` is modelled as splitting on
  the space character.
* Python `int` values (which may be negative) are `ℤ`; `float` arithmetic in
  the layout engine is modelled exactly over `ℚ` (all quantities involved are
  rational and no claim depends on binary rounding).
* Exceptions raised by the external collaborators (HTTP fetch, icalendar
  parsing, dateutil rrule evaluation) are modelled as `Option`/failure values;
  a `try/except` block around such a call becomes a `match` on that value.
-/

/-! ### Python primitive helpers -/

/-- The floor of a rational, written so that it evaluates by kernel
reduction (it agrees with `Int.floor`, see `ratFloor_eq_floor`). -/
def ratFloor (q : ℚ) : ℤ := q.num / (q.den : ℤ)

theorem ratFloor_eq_floor (q : ℚ) : ratFloor q = ⌊q⌋ := (Rat.floor_def).symm

/-- Python `round`: round half to even, as applied to an exact rational. -/
def pyRound (q : ℚ) : ℤ :=
  let f := ratFloor q
  let r := q - f
  if r < 1/2 then f
  else if 1/2 < r then f + 1
  else if f % 2 = 0 then f else f + 1

/-- Python `int(x)` on a float/rational: truncation toward zero. -/
def pyInt (q : ℚ) : ℤ :=
  if 0 ≤ q then ratFloor q else -ratFloor (-q)

/-- Python slice `s[:n]`, including the negative-`n` convention
(`s[:-k]` drops the last `k` elements, clamping at the empty list). -/
def pySlice {α : Type} (s : List α) (n : ℤ) : List α :=
  if 0 ≤ n then s.take n.toNat else s.take (s.length - n.natAbs)

/-- Python `str.strip()` (whitespace modelled as the space character). -/
def pyStrip (s : List Char) : List Char :=
  ((s.dropWhile (· = ' ')).reverse.dropWhile (· = ' ')).reverse

/-- Helper for `str.split()`: accumulate the current word (reversed). -/
def pySplitAux : List Char → List Char → List (List Char)
  | [], acc => if acc = [] then [] else [acc.reverse]
  | c :: cs, acc =>
      if c = ' ' then
        if acc = [] then pySplitAux cs [] else acc.reverse :: pySplitAux cs []
      else pySplitAux cs (c :: acc)

/-- Python `str.split()` with no argument: split on runs of whitespace,
dropping empty pieces (whitespace modelled as the space character). -/
def pySplit (s : List Char) : List (List Char) := pySplitAux s []

/-! ### Data model (`calendar_fetcher.py`) -/

/-- A value that is either a bare calendar date or a (naive or aware)
datetime, as stored in `dtstart`/`dtend` and in parsed events. -/
inductive DTime where
  | allDay (day : ℤ)
  | timed (instant : ℤ) (aware : Bool)
deriving DecidableEq, Repr

/-- One normalized occurrence, the dict built by `_parse_event` /
`_parse_recurring_event`: start, optional end, title, and the calendar
date string (modelled as the day index). -/
structure Event where
  start : DTime
  end_ : Option DTime
  title : List Char
  date : ℤ
deriving DecidableEq, Repr

/-- The requested inclusive date window (`start_date`, `end_date`). -/
structure Window where
  startDate : ℤ
  endDate : ℤ
deriving DecidableEq, Repr

/-- One VEVENT component as seen by the fetcher.  The recurrence rule is
modelled by the behaviour of the external dateutil evaluator: given the
anchor instant and the search range it returns the occurrence instants,
or `none` when `rrulestr`/`between` raises. -/
structure VEvent where
  dtstart : Option DTime
  dtend : Option DTime
  summary : Option (List Char)
  rrule : Option (ℤ → ℤ → ℤ → Option (List ℤ))

/-- A component of a parsed calendar: a VEVENT or anything else. -/
inductive Component where
  | vevent (e : VEvent)
  | other

/-- `.date()` of an aware datetime displayed in the local zone. -/
def localDay (off : ℤ) (t : ℤ) : ℤ := (t + off).fdiv 1440

/-- `_parse_event`: parse a single event, returning it iff its calendar
date lies in the window.  Naive timed starts are treated as UTC (the
instant is unchanged) and converted to the local zone (aware, same
instant); bare dates pass through. -/
def parseEvent (off : ℤ) (w : Window) (e : VEvent) : Option Event :=
  match e.dtstart, e.summary with
  | some ds, some sm =>
      let start_dt : DTime :=
        match ds with
        | .timed t _ => .timed t true
        | .allDay d => .allDay d
      let event_date : ℤ :=
        match start_dt with
        | .timed t _ => localDay off t
        | .allDay d => d
      if w.startDate ≤ event_date ∧ event_date ≤ w.endDate then
        let end_dt : Option DTime := e.dtend.map (fun de =>
          match de with
          | .timed t _ => .timed t true
          | .allDay d => .allDay d)
        some { start := start_dt, end_ := end_dt, title := sm, date := event_date }
      else none
  | _, _ => none

/-- `_parse_recurring_event`: expand a recurring event inside the window.
The duration is computed once when both ends have the same kind; the rule
is evaluated by the external collaborator anchored at the (zone-adjusted)
start over the localized search range; a rule-evaluation failure falls
back to `_parse_event`.  `if duration:` is Python truthiness, so a zero
timedelta yields no end. -/
def parseRecurringEvent (off : ℤ) (w : Window) (e : VEvent) : List Event :=
  match e.dtstart, e.summary, e.rrule with
  | some ds, some sm, some rr =>
      let duration : Option ℤ :=
        match ds, e.dtend with
        | .timed s _, some (.timed en _) => some (en - s)
        | .allDay s, some (.allDay en) => some ((en - s) * 1440)
        | _, _ => none
      let is_all_day : Bool := match ds with | .allDay _ => true | _ => false
      let anchor : ℤ :=
        match ds with
        | .timed t _ => t
        | .allDay d => d * 1440 - off
      let searchStart := w.startDate * 1440 - off
      let searchEnd := w.endDate * 1440 + 1439 - off
      match rr anchor searchStart searchEnd with
      | none => (parseEvent off w e).toList
      | some occs =>
          let occsD : List DTime :=
            if is_all_day then occs.map (fun t => .allDay (localDay off t))
            else occs.map (fun t => .timed t true)
          occsD.filterMap (fun occ =>
            let event_date : ℤ :=
              match occ with
              | .timed t _ => localDay off t
              | .allDay d => d
            if w.startDate ≤ event_date ∧ event_date ≤ w.endDate then
              let end_time : Option DTime :=
                match duration with
                | some dur =>
                    if dur ≠ 0 then
                      some (match occ with
                        | .timed t _ => .timed (t + dur) true
                        | .allDay d => .allDay (d + dur.fdiv 1440))
                    else none
                | none => none
              some { start := occ, end_ := end_time, title := sm, date := event_date }
            else none)
  | _, _, _ => []

/-- The per-component branch of the `fetch_events` loop: recurring events
go through `_parse_recurring_event`, others through `_parse_event`. -/
def processComponent (off : ℤ) (w : Window) : Component → List Event
  | .vevent e =>
      if e.rrule.isSome then parseRecurringEvent off w e
      else (parseEvent off w e).toList
  | .other => []

/-- The collection loop of `fetch_events`: each feed is `none` when its
fetch or parse raised (the broad `except` skips it and continues),
otherwise its walked components are processed in order. -/
def collectEvents (off : ℤ) (w : Window) (feeds : List (Option (List Component))) :
    List Event :=
  feeds.foldl (fun acc feed =>
    match feed with
    | none => acc
    | some cal => acc ++ cal.flatMap (processComponent off w)) []

/-- `sort_key`: an aware datetime is its instant; a naive datetime is
localized; a bare date is combined with midnight and localized, purely
for comparison. -/
def sortKey (off : ℤ) (e : Event) : ℤ :=
  match e.start with
  | .timed t aware => if aware then t else t - off
  | .allDay d => d * 1440 - off

/-- Python `sorted(all_events, key=sort_key)`: a stable sort by the key. -/
def sortEvents (off : ℤ) (l : List Event) : List Event :=
  l.mergeSort (fun a b => decide (sortKey off a ≤ sortKey off b))

/-- `fetch_events`: collect events from every feed and return the merged
list stably sorted by the display instant. -/
def fetchEvents (off : ℤ) (w : Window) (feeds : List (Option (List Component))) :
    List Event :=
  sortEvents off (collectEvents off w feeds)

/-! ### Page geometry (`PDFGenerator.__init__`) -/

/-- Points per pixel: 72 / 264. -/
def conversionFactor : ℚ := 72 / 264

def pageWidth : ℚ := 954 * conversionFactor

def pageHeight : ℚ := 1696 * conversionFactor

def margin : ℚ := 18

def contentWidth : ℚ := pageWidth - 2 * margin

def contentHeight : ℚ := pageHeight - 2 * margin

/-! ### `_wrap_text` (Text Fitter) -/

/-- `current_line += (" " + word) if current_line else word`. -/
def joinWord (line w : List Char) : List Char :=
  if line = [] then w else line ++ ' ' :: w

/-- The ellipsis marker `"..."`. -/
def ellipsisChars : List Char := ['.', '.', '.']

/-- `word[:max_chars_per_line - 3] + "..."`. -/
def truncWord (maxChars : ℤ) (w : List Char) : List Char :=
  pySlice w (maxChars - 3) ++ ellipsisChars

/-- The word loop of `_wrap_text`.  Returns the closed lines and the
current line at exit (the loop breaks as soon as an appended line makes
`len(lines) >= max_lines`). -/
def wrapCore (maxChars maxLines : ℤ) :
    List (List Char) → List Char → List (List Char) → List (List Char) × List Char
  | [], line, lines => (lines, line)
  | w :: ws, line, lines =>
      if ((line ++ ' ' :: w).length : ℤ) > maxChars then
        if line ≠ [] then
          let lines2 := lines ++ [pyStrip line]
          if (lines2.length : ℤ) ≥ maxLines then (lines2, w)
          else wrapCore maxChars maxLines ws w lines2
        else
          let lines2 := lines ++ [truncWord maxChars w]
          if (lines2.length : ℤ) ≥ maxLines then (lines2, [])
          else wrapCore maxChars maxLines ws [] lines2
      else wrapCore maxChars maxLines ws (joinWord line w) lines

/-- The trailing-ellipsis fixup of `_wrap_text`: when lines were cut off
at `max_lines`, replace the last 3 characters of the last emitted line by
`"..."` (only when that line is longer than 3 characters). -/
def ellipsisLast (lines : List (List Char)) : List (List Char) :=
  match lines.getLast? with
  | none => lines
  | some last =>
      if last.length > 3 then lines.dropLast ++ [pySlice last (-3) ++ ellipsisChars]
      else lines

/-- The tail of `_wrap_text` after the word loop: append the pending
current line when room remains, apply the trailing-ellipsis fixup when
the emitted lines were cut off at `max_lines` (detected by comparing the
input word count with the word count of the joined output), and return
`[""]` for an empty result. -/
def finishLines (maxLines : ℤ) (words : List (List Char))
    (r : List (List Char) × List Char) : List (List Char) :=
  let lines :=
    if r.2 ≠ [] ∧ (r.1.length : ℤ) < maxLines then r.1 ++ [pyStrip r.2]
    else r.1
  let lines :=
    if (lines.length : ℤ) = maxLines ∧
        words.length > (pySplit (List.intercalate [' '] lines)).length then
      ellipsisLast lines
    else lines
  if lines = [] then [[]] else lines

/-- `_wrap_text(text, max_chars_per_line, max_lines)`. -/
def wrapText (text : List Char) (maxChars maxLines : ℤ) : List (List Char) :=
  if text = [] then [[]]
  else
    finishLines maxLines (pySplit text)
      (wrapCore maxChars maxLines (pySplit text) [] [])

/-! ### `_draw_events` and friends (Page Layout Engine) -/

/-- The wall-clock minutes of a timed start as Python's datetime sees it:
an aware datetime (produced by `astimezone(local)`) shows local wall
time, a naive one shows its own tuple. -/
def wallMinutes (off : ℤ) : DTime → ℤ
  | .timed t aware => if aware then t + off else t
  | .allDay _ => 0

/-- `event['start'].hour` for a timed event. -/
def eventHour (off : ℤ) (e : Event) : ℤ := (wallMinutes off e.start).emod 1440 / 60

/-- `event['start'].minute` for a timed event. -/
def eventMinute (off : ℤ) (e : Event) : ℤ := (wallMinutes off e.start).emod 1440 % 60

/-- Is a `DTime` a timed instant (a Python `datetime`)? -/
def DTime.isTimed : DTime → Bool
  | .timed _ _ => true
  | .allDay _ => false

/-- The instant of a timed start (used for `end - start`). -/
def DTime.instantOf : DTime → ℤ
  | .timed t _ => t
  | .allDay d => d * 1440

/-- The displayed duration in minutes of one placed event
(`_draw_events` lines 176-188): `end - start` when the end is a
datetime, else the 60-minute default, then
`max(15, round(duration / 15) * 15)`. -/
def displayedDurationMinutes (startInstant : ℤ) (end_ : Option DTime) : ℤ :=
  let dm : ℚ :=
    match end_ with
    | some (.timed en _) => ((en - startInstant : ℤ) : ℚ)
    | _ => 60
  max 15 (pyRound (dm / 15) * 15)

def hourHeight : ℚ := 26

def timeColumnWidth : ℚ := 50

def eventColumnStart : ℚ := margin + timeColumnWidth - 10

def eventColumnWidth : ℚ := (contentWidth - timeColumnWidth - 6) * (1/2)

/-- A placed, sized event box together with its wrapped text lines. -/
structure Box where
  x : ℚ
  y : ℚ
  width : ℚ
  height : ℚ
  durationMinutes : ℤ
  textLines : List (List Char)
deriving DecidableEq, Repr

/-- The insertion-ordered key list of a Python dict built by appending:
first occurrence order of each distinct key. -/
def firstKeys : List ℤ → List ℤ
  | [] => []
  | h :: t => h :: firstKeys (t.filter (· ≠ h))
termination_by l => l.length
decreasing_by
  simp only [List.length_cons]
  exact Nat.lt_succ_of_le (List.length_filter_le _ _)

/-- One box of `_draw_events`: position, size, displayed duration and the
wrapped text of the `i`-th event of an hour bucket of size `bucketLen`. -/
def buildEventBox (off : ℤ) (gridTop : ℚ) (startHour : ℤ) (bucketLen : ℕ)
    (i : ℕ) (e : Event) : Box :=
  let minute := eventMinute off e
  let hoursFromStart : ℚ := ((eventHour off e - startHour : ℤ) : ℚ) + (minute : ℚ) / 60
  let eventTop := gridTop - hoursFromStart * hourHeight - 1
  let dur := displayedDurationMinutes e.start.instantOf e.end_
  let boxHeight : ℚ := ((dur : ℚ) / 60) * hourHeight
  let boxHeight := max (boxHeight - 1) 8
  let boxY := eventTop - boxHeight
  let pos : ℚ × ℚ :=
    if i = 0 then (eventColumnStart, eventColumnWidth)
    else
      let notesSectionStart := eventColumnStart + eventColumnWidth + 10
      let notesSectionWidth := contentWidth - (notesSectionStart - margin)
      let w := notesSectionWidth / ((bucketLen - 1 : ℕ) : ℚ)
      (notesSectionStart + ((i - 1 : ℕ) : ℚ) * w, w)
  let availableHeight := boxHeight - 2 * 3
  let maxLines : ℤ := max 1 (pyInt (availableHeight / 9))
  let maxLines : ℤ := if 60 ≤ dur ∧ maxLines < 2 then 2 else maxLines
  let maxChars : ℤ := pyInt ((pos.2 - 10) / 4)
  let lines := wrapText e.title maxChars maxLines
  { x := pos.1, y := boxY, width := pos.2, height := boxHeight,
    durationMinutes := dur, textLines := lines.take maxLines.toNat }

/-- `_draw_events`: bucket the timed in-range events by starting hour
(dict insertion order), then place the first event of each bucket in the
primary column and the rest in equal sub-slots of the notes column. -/
def drawEvents (off : ℤ) (events : List Event) (startHour endHour : ℤ)
    (hasAllDay : Bool) : List Box :=
  let gridTop := pageHeight - margin - 20
  let gridTop := if hasAllDay then gridTop - hourHeight else gridTop
  let timed := events.filter (fun e =>
    e.start.isTimed ∧ startHour ≤ eventHour off e ∧ eventHour off e < endHour)
  let hours := firstKeys (timed.map (eventHour off))
  hours.flatMap (fun h =>
    let bucket := timed.filter (fun e => eventHour off e = h)
    bucket.enum.map (fun p => buildEventBox off gridTop startHour bucket.length p.1 p.2))

/-- `_draw_all_day_events`: the all-day row boxes (first event in the
primary column, the rest splitting the notes column), with two-line
wrapped text. -/
def drawAllDayEvents (allDay : List Event) (yBottom : ℚ) : List Box :=
  allDay.enum.map (fun p =>
    let i := p.1
    let e := p.2
    let pos : ℚ × ℚ :=
      if i = 0 then (eventColumnStart, eventColumnWidth)
      else
        let notesSectionStart := eventColumnStart + eventColumnWidth + 10
        let notesSectionWidth := contentWidth - (notesSectionStart - margin)
        let w := notesSectionWidth / ((allDay.length - 1 : ℕ) : ℚ)
        (notesSectionStart + ((i - 1 : ℕ) : ℚ) * w, w)
    let boxHeight := hourHeight - 6
    let boxY := yBottom + 3
    let maxChars : ℤ := pyInt ((pos.2 - 10) / 4)
    let lines := wrapText e.title maxChars 2
    { x := pos.1, y := boxY, width := pos.2, height := boxHeight,
      durationMinutes := 0, textLines := lines.take 2 })

/-- `_draw_todo_section`: the y positions of the 4 checkbox rows. -/
def drawTodoSection (yStart : ℚ) : List ℚ :=
  let y0 := yStart - 14
  let lineHeight := (y0 - margin + 22) / 4
  (List.range 4).map (fun i => y0 - (i : ℚ) * lineHeight)

/-- The hour-row loop of `draw_daily_page`: draw one row per hour,
decrement `y_pos` by `hour_height`, and break once `y_pos` drops below
`margin + 100` (this check is not conditioned on `show_todos`).
Returns the drawn hours and the final `y_pos` (the schedule bottom). -/
def hourLoop : ℕ → ℤ → ℚ → List ℤ × ℚ
  | 0, _, y => ([], y)
  | n + 1, h, y =>
      let y2 := y - hourHeight
      if y2 < margin + 100 then ([h], y2)
      else
        let r := hourLoop n (h + 1) y2
        (h :: r.1, r.2)

/-- The number of hour rows the loop can draw before the early-stop
check `y_pos < margin + 100` fires, starting from `y`: the least `k ≥ 1`
with `y - k * hour_height < margin + 100` (see `hourLoop_rows`). -/
def hourCapacity (y : ℚ) : ℕ :=
  max 1 ((ratFloor ((y - (margin + 100)) / hourHeight) + 1).toNat)

/-- The rendered content of one daily page. -/
structure DayRender where
  hourRows : List ℤ
  hasAllDay : Bool
  allDayBoxes : List Box
  eventBoxes : List Box
  todo : Option (List ℚ)
deriving DecidableEq, Repr

/-- `draw_daily_page`: header, optional all-day row, hourly grid with the
early-stop check, event placement, and the to-do section when enabled.
The date argument only feeds the header label. -/
def drawDailyPage (off : ℤ) (date : ℤ) (events : List Event)
    (startHour endHour : ℤ) (showTodos : Bool) : DayRender :=
  let _ := date
  let y0 : ℚ := pageHeight - margin - 12 - 17/2
  let allDayEvents := events.filter (fun e => !e.start.isTimed)
  let hasAllDay : Bool := allDayEvents.length > 0
  let allDayBoxes :=
    if hasAllDay then drawAllDayEvents allDayEvents (y0 - hourHeight) else []
  let y1 := if hasAllDay then y0 - hourHeight else y0
  let r := hourLoop (endHour - startHour).toNat startHour y1
  let scheduleBottom := r.2
  { hourRows := r.1
    hasAllDay := hasAllDay
    allDayBoxes := allDayBoxes
    eventBoxes := drawEvents off events startHour endHour hasAllDay
    todo := if showTodos then some (drawTodoSection scheduleBottom) else none }

/-- One output page: its calendar date and rendered content. -/
structure PageOut where
  date : ℤ
  render : DayRender
deriving DecidableEq, Repr

/-- `generate_pdf`: one page per day of the inclusive range, in order,
each page drawn from the events whose date string matches that day. -/
def generatePdf (off : ℤ) (startDate endDate : ℤ) (events : List Event)
    (startHour endHour : ℤ) (showTodos : Bool) : List PageOut :=
  let totalDays := endDate - startDate + 1
  (List.range totalDays.toNat).map (fun i : ℕ =>
    let d := startDate + (i : ℤ)
    { date := d
      render := drawDailyPage off d (events.filter (fun e => e.date = d))
        startHour endHour showTodos })

/-! ### `app.py` (`generate_calendar` request handler) -/

/-- A submitted date-string form field: empty, a valid `YYYY-MM-DD`
string (its parsed day index), or a string `strptime` rejects. -/
inductive DateInput where
  | empty
  | valid (d : ℤ)
  | invalid
deriving DecidableEq, Repr

/-- The handler response: a structured 400 validation error (tagged by
which message), the generated document, or the generic 500 failure
produced by the outer `except`. -/
inductive Resp where
  | validationError (msg : ℕ)
  | ok (pages : List PageOut)
  | internalError
deriving DecidableEq, Repr

/-- `date.weekday()` with day 0 = 1970-01-01 (a Thursday); Monday = 0. -/
def weekday (d : ℤ) : ℤ := (d + 3).emod 7

/-- The default start date: the next Monday strictly after today. -/
def nextMonday (today : ℤ) : ℤ :=
  let daysAhead := 0 - weekday today
  let daysAhead := if daysAhead ≤ 0 then daysAhead + 7 else daysAhead
  today + daysAhead

/-- `generate_calendar`: validate the form, fetch events, and generate
the document.  An unparseable date string raises inside the handler and
is caught only by the outer `except`, yielding the generic failure. -/
def generateCalendar (off : ℤ) (today : ℤ) (icalUrlsNonempty : Bool)
    (startIn endIn : DateInput) (startHour endHour : ℤ) (showTodos : Bool)
    (feeds : List (Option (List Component))) : Resp :=
  if !icalUrlsNonempty then .validationError 1
  else if endHour - startHour < 8 then .validationError 2
  else if 12 < endHour - startHour then .validationError 3
  else
    match startIn with
    | .invalid => .internalError
    | _ =>
        let startDate := match startIn with | .valid d => d | _ => nextMonday today
        match endIn with
        | .invalid => .internalError
        | _ =>
            let endDate := match endIn with | .valid d => d | _ => startDate + 6
            if endDate < startDate then .validationError 4
            else .ok (generatePdf off startDate endDate
              (fetchEvents off ⟨startDate, endDate⟩ feeds) startHour endHour showTodos)

/-- A concrete recurring event whose rule never evaluates. -/
def vEventBadRule : VEvent :=
  { dtstart := some (.timed 600 true), dtend := none,
    summary := some ['S'], rrule := some (fun _ _ _ => none) }

/-! ### Helper lemmas -/

/-- Closed form of `collectEvents`: the accumulator is prepended to the
events of the successfully fetched and parsed feeds, in order. -/
theorem collectEvents_go (off : ℤ) (w : Window) :
    ∀ (feeds : List (Option (List Component))) (acc : List Event),
      feeds.foldl (fun acc feed =>
        match feed with
        | none => acc
        | some cal => acc ++ cal.flatMap (processComponent off w)) acc
      = acc ++ (feeds.filterMap id).flatMap
          (fun cal => cal.flatMap (processComponent off w))
  | [], acc => by simp
  | none :: t, acc => by
      simpa using collectEvents_go off w t acc
  | some cal :: t, acc => by
      simp only [List.foldl_cons, List.filterMap_cons_some, List.flatMap_cons, id]
      rw [collectEvents_go off w t]
      simp [List.append_assoc]

/-- `collectEvents` returns exactly the events of the feeds whose fetch
and parse succeeded, in feed-then-in-feed order. -/
theorem collectEvents_eq (off : ℤ) (w : Window)
    (feeds : List (Option (List Component))) :
    collectEvents off w feeds
      = (feeds.filterMap id).flatMap (fun cal => cal.flatMap (processComponent off w)) := by
  simpa using collectEvents_go off w feeds []

/-! ### C1: displayed duration of a placed event -/

/-- C1, counterexample.  The claim states that a 37-minute timed
occurrence is displayed as 45 minutes; the code rounds `37 / 15` to the
nearest multiple (Python `round`), giving 30 minutes, not 45. -/
theorem c1_counterexample :
    displayedDurationMinutes 0 (some (DTime.timed 37 true)) = 30 ∧
    displayedDurationMinutes 0 (some (DTime.timed 37 true)) ≠ 45 := by
  constructor
  · with_unfolding_all decide
  · with_unfolding_all decide

/-- C1, amended.  The displayed duration is `end - start` when the end is
a timed instant, defaults to 60 minutes when the end is absent, and is
rounded to the NEAREST 15-minute increment (Python `round`, half to even)
with a 15-minute minimum; in particular a 37-minute occurrence displays
as 30 minutes (not 45) and a 5-minute occurrence as 15 minutes. -/
theorem c1_duration_rounding (s en : ℤ) (aw : Bool) :
    (en - s = 37 → displayedDurationMinutes s (some (DTime.timed en aw)) = 30) ∧
    (en - s = 5 → displayedDurationMinutes s (some (DTime.timed en aw)) = 15) ∧
    displayedDurationMinutes s none = 60 := by
  have hd : displayedDurationMinutes s (some (DTime.timed en aw))
      = max 15 (pyRound (((en - s : ℤ) : ℚ) / 15) * 15) := rfl
  have hn : displayedDurationMinutes s none
      = max 15 (pyRound ((60 : ℚ) / 15) * 15) := rfl
  refine ⟨fun h => ?_, fun h => ?_, ?_⟩
  · rw [hd, h]; with_unfolding_all decide
  · rw [hd, h]; with_unfolding_all decide
  · rw [hn]; with_unfolding_all decide

/-- C1 witness: the amended theorem applied at concrete inputs. -/
theorem c1_duration_rounding_witness :
    displayedDurationMinutes 2200 (some (DTime.timed 2237 true)) = 30 ∧
    displayedDurationMinutes 100 (some (DTime.timed 105 false)) = 15 ∧
    displayedDurationMinutes 5 none = 60 :=
  ⟨(c1_duration_rounding 2200 2237 true).1 (by decide),
   (c1_duration_rounding 100 105 false).2.1 (by decide),
   (c1_duration_rounding 5 0 true).2.2⟩

/-! ### C7: recurrence-rule evaluation failure falls back to the single-event rule -/

/-- C7.  If the recurrence rule fails to evaluate (the external
`rrulestr`/`between` call raises), `_parse_recurring_event` returns
exactly what `_parse_event` returns for the same event and window (one
occurrence iff its calendar date falls in the window), never silently
nothing while an in-window single occurrence exists. -/
theorem c7_rrule_failure_fallback (off : ℤ) (w : Window) (e : VEvent)
    (rr : ℤ → ℤ → ℤ → Option (List ℤ)) (hrr : e.rrule = some rr)
    (hfail : ∀ a s1 s2, rr a s1 s2 = none) :
    parseRecurringEvent off w e = (parseEvent off w e).toList := by
  obtain ⟨ds, de, sm, ru⟩ := e
  simp only [VEvent.rrule] at hrr
  subst hrr
  cases ds with
  | none =>
      cases sm <;> simp [parseRecurringEvent, parseEvent]
  | some d =>
      cases sm with
      | none => simp [parseRecurringEvent, parseEvent]
      | some s => cases d <;> simp [parseRecurringEvent, hfail]

/-- C7 witness: the fallback theorem applied to a concrete event. -/
theorem c7_rrule_failure_fallback_witness :
    parseRecurringEvent 0 ⟨0, 1⟩ vEventBadRule = (parseEvent 0 ⟨0, 1⟩ vEventBadRule).toList :=
  c7_rrule_failure_fallback 0 ⟨0, 1⟩ vEventBadRule (fun _ _ _ => none) rfl
    (fun _ _ _ => rfl)

/-! ### C8: caller-input validation -/

/-- C8, counterexample.  The claim states invalid date strings are
surfaced as a structured validation error; in the code `strptime` raises
and only the outer broad `except` catches it, so the caller receives the
generic internal-failure response instead. -/
theorem c8_counterexample :
    generateCalendar 0 0 true .invalid .empty 6 17 true [] = Resp.internalError := by
  decide

/-- C8, amended.  An empty source list, a time range shorter than 8 or
longer than 12 hours, and an end date before the start date are surfaced
as structured validation errors (constructor-distinct from the generic
internal failure, and from the silent per-feed/per-event recovery which
never leaves `fetchEvents`); an invalid date string, however, escapes to
the outer handler and yields the generic internal-failure response. -/
theorem c8_validation_errors (off today : ℤ) (startIn endIn : DateInput)
    (sh eh : ℤ) (todos : Bool) (feeds : List (Option (List Component))) :
    (generateCalendar off today false startIn endIn sh eh todos feeds
        = Resp.validationError 1) ∧
    (eh - sh < 8 → generateCalendar off today true startIn endIn sh eh todos feeds
        = Resp.validationError 2) ∧
    (8 ≤ eh - sh → 12 < eh - sh →
      generateCalendar off today true startIn endIn sh eh todos feeds
        = Resp.validationError 3) ∧
    (∀ s en, 8 ≤ eh - sh → eh - sh ≤ 12 → en < s →
      generateCalendar off today true (.valid s) (.valid en) sh eh todos feeds
        = Resp.validationError 4) ∧
    (8 ≤ eh - sh → eh - sh ≤ 12 →
      generateCalendar off today true .invalid endIn sh eh todos feeds
        = Resp.internalError) ∧
    (∀ n, Resp.validationError n ≠ Resp.internalError) := by
  refine ⟨?_, fun h2 => ?_, fun h8 h12 => ?_, fun s en h8 h12 hlt => ?_,
    fun h8 h12 => ?_, fun n h => Resp.noConfusion h⟩
  · simp [generateCalendar]
  · simp [generateCalendar, h2]
  · have hn8 : ¬ eh - sh < 8 := by omega
    simp [generateCalendar, hn8, h12]
  · have hn8 : ¬ eh - sh < 8 := by omega
    have hn12 : ¬ 12 < eh - sh := by omega
    simp [generateCalendar, hn8, hn12, hlt]
  · have hn8 : ¬ eh - sh < 8 := by omega
    have hn12 : ¬ 12 < eh - sh := by omega
    simp [generateCalendar, hn8, hn12]

/-- C8 witness: the amended theorem applied at concrete inputs. -/
theorem c8_validation_errors_witness :
    generateCalendar 0 0 false .empty .empty 6 17 true [] = Resp.validationError 1 ∧
    generateCalendar 0 0 true .empty .empty 6 13 true [] = Resp.validationError 2 ∧
    generateCalendar 0 0 true .empty .empty 6 19 true [] = Resp.validationError 3 ∧
    generateCalendar 0 0 true (.valid 5) (.valid 3) 6 17 true [] = Resp.validationError 4 ∧
    generateCalendar 0 0 true .invalid .empty 6 17 true [] = Resp.internalError :=
  ⟨(c8_validation_errors 0 0 .empty .empty 6 17 true []).1,
   (c8_validation_errors 0 0 .empty .empty 6 13 true []).2.1 (by decide),
   (c8_validation_errors 0 0 .empty .empty 6 19 true []).2.2.1 (by decide) (by decide),
   (c8_validation_errors 0 0 .empty .empty 6 17 true []).2.2.2.1 5 3 (by decide)
     (by decide) (by decide),
   (c8_validation_errors 0 0 .empty .empty 6 17 true []).2.2.2.2.1 (by decide) (by decide)⟩

/-! ### C4: one page per date of the window -/

/-- C4.  For a valid hour range and a window with `end_date >= start_date`,
`generate_pdf` is total and produces exactly `end_date - start_date + 1`
pages, one per date of the window, in strictly ascending date order. -/
theorem c4_page_count (off startDate endDate : ℤ) (events : List Event)
    (sh eh : ℤ) (todos : Bool) (h8 : 8 ≤ eh - sh) (h12 : eh - sh ≤ 12)
    (hw : startDate ≤ endDate) :
    ((generatePdf off startDate endDate events sh eh todos).length : ℤ)
        = endDate - startDate + 1 ∧
    (generatePdf off startDate endDate events sh eh todos).map PageOut.date
        = (List.range (endDate - startDate + 1).toNat).map (fun i : ℕ => startDate + (i : ℤ)) ∧
    ((generatePdf off startDate endDate events sh eh todos).map PageOut.date).Pairwise
      (· < ·) := by
  have hmap : (generatePdf off startDate endDate events sh eh todos).map PageOut.date
      = (List.range (endDate - startDate + 1).toNat).map (fun i : ℕ => startDate + (i : ℤ)) := by
    simp only [generatePdf, List.map_map]
    rfl
  refine ⟨?_, hmap, ?_⟩
  · have hlen := congrArg List.length hmap
    simp only [List.length_map, List.length_range] at hlen
    omega
  · rw [hmap]
    refine List.pairwise_map.mpr (((List.pairwise_lt_range _).imp ?_))
    intro a b hab
    simp only [add_lt_add_iff_left, Nat.cast_lt]
    exact hab

/-- C4 witness: a two-day window produces two pages with ascending dates. -/
theorem c4_page_count_witness :
    ((generatePdf 0 0 1 [] 6 17 true).length : ℤ) = 2 ∧
    (generatePdf 0 0 1 [] 6 17 true).map PageOut.date = [0, 1] := by
  have h := c4_page_count 0 0 1 [] 6 17 true (by decide) (by decide) (by decide)
  refine ⟨by rw [h.1]; decide, ?_⟩
  rw [h.2.1]
  decide

/-! ### C3: a failing feed is skipped, the rest are kept -/

/-- C3.  A feed whose fetch or parse fails (`none`) is skipped wherever it
occurs: the result is the same as without that feed, and it is exactly
the stably sorted occurrences of the feeds that succeeded (the function
is total, so no error is raised). -/
theorem c3_failed_feed_isolation (off : ℤ) (w : Window)
    (l1 l2 : List (Option (List Component))) :
    fetchEvents off w (l1 ++ none :: l2) = fetchEvents off w (l1 ++ l2) ∧
    fetchEvents off w (l1 ++ l2)
      = sortEvents off (((l1 ++ l2).filterMap id).flatMap
          (fun cal => cal.flatMap (processComponent off w))) := by
  have h2 : fetchEvents off w (l1 ++ l2)
      = sortEvents off (((l1 ++ l2).filterMap id).flatMap
          (fun cal => cal.flatMap (processComponent off w))) := by
    unfold fetchEvents
    rw [collectEvents_eq]
  refine ⟨?_, h2⟩
  unfold fetchEvents
  rw [collectEvents_eq, collectEvents_eq]
  simp [List.filterMap_append]

/-! ### C10: fetch_events is total and absorbs all per-feed failures -/

/-- C10.  `fetch_events` always returns a (possibly empty) list: its value
is determined by the successfully fetched and parsed feeds alone (every
fetch/parse/per-event failure is absorbed inside the loop as a skipped
feed, a dropped event, or a degraded expansion), and when every feed
fails the result is the empty list. -/
theorem c10_fetch_events_total (off : ℤ) (w : Window)
    (feeds : List (Option (List Component))) :
    fetchEvents off w feeds
      = sortEvents off ((feeds.filterMap id).flatMap
          (fun cal => cal.flatMap (processComponent off w))) ∧
    ((∀ f ∈ feeds, f = none) → fetchEvents off w feeds = []) := by
  have h1 : fetchEvents off w feeds
      = sortEvents off ((feeds.filterMap id).flatMap
          (fun cal => cal.flatMap (processComponent off w))) := by
    unfold fetchEvents
    rw [collectEvents_eq]
  refine ⟨h1, fun hall => ?_⟩
  rw [h1]
  have hnil : feeds.filterMap id = [] := by
    rw [List.filterMap_eq_nil_iff]
    intro a ha
    rw [hall a ha]
    rfl
  rw [hnil]
  simp [sortEvents]

/-- C10 witness: two dead feeds produce the empty list. -/
theorem c10_fetch_events_total_witness :
    fetchEvents 0 ⟨0, 0⟩ [none, none] = [] :=
  (c10_fetch_events_total 0 ⟨0, 0⟩ [none, none]).2 (by simp)

/-! ### C2: the normalized result is stably sorted by the display instant -/

/-- C2.  `fetch_events` returns the collected occurrences sorted by the
single ordering key `sort_key` (the display instant, bare dates compared
as local midnight), and the sort is stable: for every key value, the
occurrences carrying that key appear in exactly their
feed-then-in-feed insertion order (their sublist is unchanged). -/
theorem c2_sorted_and_stable (off : ℤ) (w : Window)
    (feeds : List (Option (List Component))) :
    (fetchEvents off w feeds).Pairwise (fun a b => sortKey off a ≤ sortKey off b) ∧
    ∀ k : ℤ,
      (fetchEvents off w feeds).filter (fun e => decide (sortKey off e = k))
        = (collectEvents off w feeds).filter (fun e => decide (sortKey off e = k)) := by
  set le : Event → Event → Bool :=
    fun a b => decide (sortKey off a ≤ sortKey off b) with hle
  set l : List Event := collectEvents off w feeds with hl
  have heq : fetchEvents off w feeds = l.mergeSort le := rfl
  have htrans : ∀ a b c : Event, le a b → le b c → le a c := by
    intro a b c hab hbc
    simp only [hle, decide_eq_true_eq] at *
    omega
  have htotal : ∀ a b : Event, le a b || le b a := by
    intro a b
    simp only [hle, Bool.or_eq_true, decide_eq_true_eq]
    omega
  constructor
  · rw [heq]
    exact (List.sorted_mergeSort htrans htotal l).imp
      (fun h => by simpa [hle] using h)
  · intro k
    set p : Event → Bool := fun e => decide (sortKey off e = k) with hp
    have hpw : (l.filter p).Pairwise (fun a b => le a b) := by
      refine List.pairwise_of_forall_mem_list ?_
      intro a ha b hb
      have ha2 := (List.mem_filter.mp ha).2
      have hb2 := (List.mem_filter.mp hb).2
      simp only [hp, decide_eq_true_eq] at ha2 hb2
      simp only [hle, decide_eq_true_eq]
      omega
    have hstable : List.Sublist (l.filter p) (l.mergeSort le) :=
      List.sublist_mergeSort htrans htotal hpw (List.filter_sublist l)
    have hA : (l.filter p).filter p = l.filter p :=
      List.filter_eq_self.mpr (fun a ha => (List.mem_filter.mp ha).2)
    have h5 : List.Sublist (l.filter p) ((l.mergeSort le).filter p) := by
      have h6 := hstable.filter p
      rwa [hA] at h6
    have hperm : List.Perm ((l.mergeSort le).filter p) (l.filter p) :=
      (List.mergeSort_perm l le).filter p
    rw [heq]
    exact (h5.eq_of_length hperm.length_eq.symm).symm

/-! ### Text-fitter lemmas (towards C5 and C6) -/

/-- `split()` of a space-free suffix appended to an accumulator. -/
theorem pySplitAux_no_space (w : List Char) :
    ∀ acc : List Char, (∀ c ∈ w, c ≠ ' ') →
      pySplitAux w acc = if acc = [] ∧ w = [] then [] else [acc.reverse ++ w] := by
  induction w with
  | nil =>
      intro acc _
      by_cases h : acc = [] <;> simp [pySplitAux, h]
  | cons c cs ih =>
      intro acc h
      have hc : c ≠ ' ' := h c (List.mem_cons_self c cs)
      have hcs : ∀ x ∈ cs, x ≠ ' ' := fun x hx => h x (List.mem_cons_of_mem c hx)
      simp only [pySplitAux, if_neg hc]
      rw [ih (c :: acc) hcs]
      simp

/-- A nonempty space-free text splits into itself as the single word. -/
theorem pySplit_single (w : List Char) (hw : w ≠ []) (hns : ∀ c ∈ w, c ≠ ' ') :
    pySplit w = [w] := by
  unfold pySplit
  rw [pySplitAux_no_space w [] hns]
  simp [hw]

theorem truncWord_ne_nil (mc : ℤ) (w : List Char) : truncWord mc w ≠ [] := by
  simp [truncWord, ellipsisChars]

theorem truncWord_no_space (mc : ℤ) (w : List Char) (hns : ∀ c ∈ w, c ≠ ' ') :
    ∀ c ∈ truncWord mc w, c ≠ ' ' := by
  intro c hc
  rcases List.mem_append.mp hc with h | h
  · refine hns c ?_
    unfold pySlice at h
    split at h
    · exact List.mem_of_mem_take h
    · exact List.mem_of_mem_take h
  · simp only [ellipsisChars, List.mem_cons, List.not_mem_nil, or_false] at h
    rcases h with rfl | rfl | rfl <;> decide

/-- The trailing-ellipsis fixup never changes the number of lines. -/
theorem ellipsisLast_length (l : List (List Char)) :
    (ellipsisLast l).length = l.length := by
  rcases hl : l.getLast? with _ | last
  · simp [ellipsisLast, hl]
  · simp only [ellipsisLast, hl]
    by_cases h3 : last.length > 3
    · rw [if_pos h3]
      have hne : l ≠ [] := by
        intro h
        subst h
        simp at hl
      have hpos : 1 ≤ l.length := List.length_pos.mpr hne
      simp only [List.length_append, List.length_dropLast, List.length_cons,
        List.length_nil]
      omega
    · rw [if_neg h3]

/-- The word loop never produces more than `max_lines` closed lines when
it starts below the budget. -/
theorem wrapCore_length_le (mc ml : ℤ) :
    ∀ (ws : List (List Char)) (line : List Char) (lines : List (List Char)),
      (lines.length : ℤ) < ml → ((wrapCore mc ml ws line lines).1.length : ℤ) ≤ ml
  | [], _, lines, h => by
      simp only [wrapCore]
      omega
  | w :: ws, line, lines, h => by
      simp only [wrapCore]
      by_cases hov : ((line ++ ' ' :: w).length : ℤ) > mc
      · rw [if_pos hov]
        by_cases hline : line ≠ []
        · rw [if_pos hline]
          by_cases hge : (((lines ++ [pyStrip line]).length : ℤ) ≥ ml)
          · rw [if_pos hge]
            simp only [List.length_append, List.length_cons, List.length_nil]
            push_cast
            omega
          · rw [if_neg hge]
            refine wrapCore_length_le mc ml ws w (lines ++ [pyStrip line]) ?_
            simp only [List.length_append, List.length_cons, List.length_nil] at hge ⊢
            push_cast at hge ⊢
            omega
        · rw [if_neg hline]
          by_cases hge : (((lines ++ [truncWord mc w]).length : ℤ) ≥ ml)
          · rw [if_pos hge]
            simp only [List.length_append, List.length_cons, List.length_nil]
            push_cast
            omega
          · rw [if_neg hge]
            refine wrapCore_length_le mc ml ws [] (lines ++ [truncWord mc w]) ?_
            simp only [List.length_append, List.length_cons, List.length_nil] at hge ⊢
            push_cast at hge ⊢
            omega
      · rw [if_neg hov]
        exact wrapCore_length_le mc ml ws (joinWord line w) lines h

/-- The post-processing step keeps the line count within the budget. -/
theorem finishLines_length_le (ml : ℤ) (words : List (List Char))
    (r : List (List Char) × List Char) (hml : 1 ≤ ml)
    (hr : (r.1.length : ℤ) ≤ ml) :
    ((finishLines ml words r).length : ℤ) ≤ ml := by
  have key : ∀ l : List (List Char), ((l.length : ℤ) ≤ ml) →
      (((if l = [] then ([[]] : List (List Char)) else l)).length : ℤ) ≤ ml := by
    intro l hl
    split
    · simpa using hml
    · exact hl
  unfold finishLines
  refine key _ ?_
  rw [apply_ite List.length, ellipsisLast_length, ite_self, apply_ite List.length]
  split
  · rename_i hc1
    simp only [List.length_append, List.length_cons, List.length_nil]
    push_cast
    omega
  · exact hr

/-! ### C5: hard truncation of an over-long word -/

/-- C5, counterexample.  The claim says every word exceeding the budget
is hard-truncated to budget length; but a long word reached while the
current line is nonempty is carried over and emitted untruncated — here
the 12-character word survives a budget of 5. -/
theorem c5_counterexample :
    wrapText ("a verylongword".toList) 5 3 = [['a'], "verylongword".toList] ∧
    ("verylongword".toList).length ≠ 5 := by
  constructor
  · decide
  · decide

/-- C5, amended.  A word exceeding `max_chars_per_line` is hard-truncated
to `max_chars_per_line - 3` characters plus the ellipsis marker only when
it is encountered with an empty current line — in particular when the
text consists of that single word — and then, provided
`max_chars_per_line ≥ 3`, the emitted line has length exactly
`max_chars_per_line`. -/
theorem c5_long_word_line (w : List Char) (mc ml : ℤ)
    (hw : w ≠ []) (hns : ∀ c ∈ w, c ≠ ' ')
    (h3 : 3 ≤ mc) (hlong : mc < (w.length : ℤ)) (hml : 1 ≤ ml) :
    wrapText w mc ml = [truncWord mc w] ∧ ((truncWord mc w).length : ℤ) = mc := by
  have hlen : ((truncWord mc w).length : ℤ) = mc := by
    unfold truncWord pySlice
    rw [if_pos (by omega : (0:ℤ) ≤ mc - 3)]
    simp only [ellipsisChars, List.length_append, List.length_take, List.length_cons,
      List.length_nil]
    push_cast
    omega
  refine ⟨?_, hlen⟩
  have hsplit : pySplit w = [w] := pySplit_single w hw hns
  have hov : ((([] : List Char) ++ ' ' :: w).length : ℤ) > mc := by
    simp only [List.nil_append, List.length_cons]
    push_cast
    omega
  have hcore : wrapCore mc ml [w] [] [] = ([truncWord mc w], []) := by
    simp only [wrapCore]
    rw [if_pos hov]
    simp only [ne_eq, not_true_eq_false, if_false]
    by_cases h1 : ((([] ++ [truncWord mc w] : List (List Char)).length : ℤ) ≥ ml)
    · rw [if_pos h1]
      simp
    · rw [if_neg h1]
      simp [wrapCore]
  unfold wrapText
  rw [if_neg hw, hsplit, hcore]
  unfold finishLines
  have hsp2 : pySplit (List.intercalate [' '] [truncWord mc w]) = [truncWord mc w] := by
    have hi : List.intercalate [' '] [truncWord mc w] = truncWord mc w := by
      simp [List.intercalate]
    rw [hi]
    exact pySplit_single _ (truncWord_ne_nil mc w) (truncWord_no_space mc w hns)
  simp [hsp2]

/-- C5 witness: the amended theorem at a concrete six-character word with
a budget of 4. -/
theorem c5_long_word_line_witness :
    wrapText ['a', 'b', 'c', 'd', 'e', 'f'] 4 2
        = [truncWord 4 ['a', 'b', 'c', 'd', 'e', 'f']] ∧
    ((truncWord 4 ['a', 'b', 'c', 'd', 'e', 'f']).length : ℤ) = 4 :=
  c5_long_word_line ['a', 'b', 'c', 'd', 'e', 'f'] 4 2 (by decide) (by decide)
    (by decide) (by decide) (by decide)

/-! ### C6: the line budget -/

/-- C6, counterexample.  With `max_lines = 0` the function still returns
the single line `[""]` (the empty-result fallback), so the advertised
bound `length ≤ max_lines` fails at `max_lines = 0`. -/
theorem c6_counterexample :
    (wrapText ['a'] 10 0).length = 1 ∧ ¬ (((wrapText ['a'] 10 0).length : ℤ) ≤ 0) := by
  constructor
  · decide
  · decide

/-- C6, amended.  For every `max_lines ≥ 1` the returned sequence has
length at most `max_lines` (for `max_lines ≤ 0` the empty-result fallback
still emits one line); and the moment a closed line fills the budget, the
word loop stops: the remaining words are never consumed. -/
theorem c6_line_budget :
    (∀ (text : List Char) (mc ml : ℤ), 1 ≤ ml →
      ((wrapText text mc ml).length : ℤ) ≤ ml) ∧
    (∀ (mc ml : ℤ) (w line : List Char) (ws lines : List (List Char)),
      ((line ++ ' ' :: w).length : ℤ) > mc → ml ≤ (lines.length : ℤ) + 1 →
      wrapCore mc ml (w :: ws) line lines = wrapCore mc ml [w] line lines) := by
  constructor
  · intro text mc ml hml
    unfold wrapText
    split
    · simpa using hml
    · exact finishLines_length_le ml _ _ hml
        (wrapCore_length_le mc ml _ [] [] (by simpa using hml))
  · intro mc ml w line ws lines hov hfull
    simp only [wrapCore]
    rw [if_pos hov, if_pos hov]
    by_cases hline : line ≠ []
    · rw [if_pos hline, if_pos hline]
      have hge : (((lines ++ [pyStrip line]).length : ℤ) ≥ ml) := by
        simp only [List.length_append, List.length_cons, List.length_nil]
        push_cast
        omega
      rw [if_pos hge, if_pos hge]
    · rw [if_neg hline, if_neg hline]
      have hge : (((lines ++ [truncWord mc w]).length : ℤ) ≥ ml) := by
        simp only [List.length_append, List.length_cons, List.length_nil]
        push_cast
        omega
      rw [if_pos hge, if_pos hge]

/-- C6 witness: the amended theorem at concrete inputs (a two-word text
within budget, and a loop state whose next closed line fills it). -/
theorem c6_line_budget_witness :
    ((wrapText ('h' :: 'i' :: []) 10 3).length : ℤ) ≤ 3 ∧
    wrapCore 3 1 (['a', 'b', 'c', 'd'] :: [['x']]) ['q'] []
      = wrapCore 3 1 [['a', 'b', 'c', 'd']] ['q'] [] :=
  ⟨c6_line_budget.1 ('h' :: 'i' :: []) 10 3 (by decide),
   c6_line_budget.2 3 1 ['a', 'b', 'c', 'd'] ['q'] [['x']] [] (by decide) (by decide)⟩

/-! ### C9: the hourly grid and its early stop -/

/-- When even the first row crosses the reserve line, the capacity is 1
(the row is drawn before the check fires). -/
theorem hourCapacity_eq_one (y : ℚ) (hbr : y - hourHeight < margin + 100) :
    hourCapacity y = 1 := by
  unfold hourCapacity
  rw [ratFloor_eq_floor]
  have hq : (y - (margin + 100)) / hourHeight < 1 := by
    rw [div_lt_one (by norm_num [hourHeight])]
    linarith
  have hfl : ⌊(y - (margin + 100)) / hourHeight⌋ < 1 := Int.floor_lt.mpr (by
    push_cast
    exact hq)
  omega

/-- Below the reserve line the capacity decreases by one per drawn row. -/
theorem hourCapacity_succ (y : ℚ) (hbr : ¬ y - hourHeight < margin + 100) :
    hourCapacity y = hourCapacity (y - hourHeight) + 1 := by
  unfold hourCapacity
  rw [ratFloor_eq_floor, ratFloor_eq_floor]
  have hstep : (y - hourHeight - (margin + 100)) / hourHeight
      = (y - (margin + 100)) / hourHeight - 1 := by
    rw [show y - hourHeight - (margin + 100) = (y - (margin + 100)) - hourHeight by ring,
      sub_div, div_self (by norm_num [hourHeight])]
  have hone : (1 : ℚ) ≤ (y - (margin + 100)) / hourHeight := by
    rw [one_le_div (by norm_num [hourHeight])]
    linarith
  have hfl : 1 ≤ ⌊(y - (margin + 100)) / hourHeight⌋ := Int.le_floor.mpr (by
    push_cast
    exact hone)
  rw [hstep, show ((y - (margin + 100)) / hourHeight - 1 : ℚ)
      = (y - (margin + 100)) / hourHeight - ((1 : ℤ) : ℚ) by push_cast; ring,
    Int.floor_sub_int]
  omega

/-- Closed form of the hour-row loop: one row per hour starting at `h`,
truncated at the capacity of the starting `y` position. -/
theorem hourLoop_rows : ∀ (n : ℕ) (h : ℤ) (y : ℚ),
    (hourLoop n h y).1
      = (List.range (min n (hourCapacity y))).map (fun i : ℕ => h + (i : ℤ))
  | 0, h, y => by simp [hourLoop]
  | n + 1, h, y => by
      simp only [hourLoop]
      by_cases hbr : y - hourHeight < margin + 100
      · rw [if_pos hbr, hourCapacity_eq_one y hbr]
        have hmin : min (n + 1) 1 = 1 := by omega
        rw [hmin, show List.range 1 = [0] from rfl]
        simp
      · rw [if_neg hbr, hourCapacity_succ y hbr]
        have hrec := hourLoop_rows n (h + 1) (y - hourHeight)
        simp only [hrec]
        rw [show min (n + 1) (hourCapacity (y - hourHeight) + 1)
            = min n (hourCapacity (y - hourHeight)) + 1 from Nat.succ_min_succ n _,
          List.range_succ_eq_map]
        simp only [List.map_cons, List.map_map, Nat.cast_zero, add_zero, List.cons.injEq,
          true_and]
        refine List.map_congr_left ?_
        intro i _
        simp only [Function.comp_apply]
        push_cast
        ring

/-- C9, counterexample.  With an all-day row, a 12-hour range and the
to-do section DISABLED, the early-stop check still fires: only 11 hour
rows are drawn and the row for hour 17 is missing, so the stop is not
"only enforced when to-do is enabled". -/
theorem c9_counterexample :
    (drawDailyPage 0 0 [⟨DTime.allDay 0, none, ['A'], 0⟩] 6 18 false).hourRows
        = [6, 7, 8, 9, 10, 11, 12, 13, 14, 15, 16] ∧
    (17 : ℤ) ∉ (drawDailyPage 0 0 [⟨DTime.allDay 0, none, ['A'], 0⟩] 6 18 false).hourRows := by
  constructor
  · with_unfolding_all decide
  · with_unfolding_all decide

/-- C9, amended.  The engine draws one row per integer hour of
`[start_hour, end_hour)` but stops early once the row bottom falls below
`margin + 100` (the room kept for the to-do section), and this check is
enforced whether or not the to-do section is enabled: the drawn rows are
identical for both `show_todos` values and are capped at 12 rows
(11 when an all-day row shifts the grid down). -/
theorem c9_hour_grid (off date : ℤ) (events : List Event) (sh eh : ℤ) (todos : Bool) :
    (drawDailyPage off date events sh eh todos).hourRows
      = (drawDailyPage off date events sh eh true).hourRows ∧
    (drawDailyPage off date events sh eh todos).hourRows
      = (List.range (min (eh - sh).toNat
          (if (drawDailyPage off date events sh eh todos).hasAllDay then 11 else 12))).map
        (fun i : ℕ => sh + (i : ℤ)) := by
  have hcap0 : hourCapacity (pageHeight - margin - 12 - 17/2) = 12 := by
    with_unfolding_all decide
  have hcap1 : hourCapacity (pageHeight - margin - 12 - 17/2 - hourHeight) = 11 := by
    with_unfolding_all decide
  refine ⟨rfl, ?_⟩
  by_cases hAD : (events.filter (fun e => !e.start.isTimed)).length > 0
  · have h1 : (drawDailyPage off date events sh eh todos).hourRows
        = (hourLoop (eh - sh).toNat sh (pageHeight - margin - 12 - 17/2 - hourHeight)).1 := by
      simp [drawDailyPage, hAD]
    have h2 : (drawDailyPage off date events sh eh todos).hasAllDay = true := by
      simp [drawDailyPage, hAD]
    rw [h1, h2, hourLoop_rows, hcap1]
    simp
  · have h1 : (drawDailyPage off date events sh eh todos).hourRows
        = (hourLoop (eh - sh).toNat sh (pageHeight - margin - 12 - 17/2)).1 := by
      simp [drawDailyPage, hAD]
    have h2 : (drawDailyPage off date events sh eh todos).hasAllDay = false := by
      simp [drawDailyPage, hAD]
    rw [h1, h2, hourLoop_rows, hcap0]
    simp
